import Mathlib

/-!
Verification of the Prebid.js bid-monitoring / Google Ad Manager pricing-rule
adjuster script.

The repository consists of near-duplicate variants of one browser script.  The
primary variant (src/main.js, first script) keeps a per-ad-unit history of
timestamped bid prices, evicts entries older than 24 hours on each write,
computes a 90th-percentile "required bid", adds a one-cent increment, scales
the result during peak hours, quantizes it for the `hb_pb` targeting key, and
forwards the raw optimal bid to the (stubbed) Ad Manager update call.

Monetary amounts are embedded as rationals (ℚ); JavaScript timestamps
(milliseconds since the epoch) as integers (ℤ).  `Math.floor(n * 0.9)` on an
array length `n` is embedded as natural-number division `(9 * n) / 10`, which
agrees with the IEEE-754 computation for every realistic array length.
`Math.round` is embedded as `⌊q + 1/2⌋` (round half toward +∞), which is its
behaviour on finite doubles.  JavaScript `sort((a, b) => a - b)` on numbers is
embedded as sorting ascending with `List.insertionSort`.
-/

namespace GamFloor

/-- One stored bid observation: `{ cpm, timestamp: Date.now() }` from the
`bidResponse` handler in src/main.js. -/
structure BidObservation where
  cpm : ℚ
  timestamp : ℤ
  deriving DecidableEq, Repr

/-- `const priceAdjustmentFactor = 0.01` (src/main.js). -/
def priceAdjustmentFactor : ℚ := 1 / 100

/-- `const peakHourIncrease = 0.15` (src/main.js). -/
def peakHourIncrease : ℚ := 15 / 100

/-- `const bidExpirationTime = 24 * 60 * 60 * 1000` milliseconds (src/main.js). -/
def bidExpirationTime : ℤ := 24 * 60 * 60 * 1000

/-- `isPeakHour()` (src/main.js): the wall-clock hour and minute are taken from
`new Date()`; here they are explicit parameters. -/
def isPeakHour (hours minutes : ℕ) : Bool :=
  let timeInMinutes := hours * 60 + minutes
  (decide (450 ≤ timeInMinutes) && decide (timeInMinutes ≤ 570)) ||
    (decide (990 ≤ timeInMinutes) && decide (timeInMinutes ≤ 1140))

/-- The per-slot body of the `bidResponse` handler (src/main.js): push
`{cpm, timestamp: now}` onto the slot's history, then
`filter(bid => (now - bid.timestamp) < bidExpirationTime)`. -/
def recordBid (history : List BidObservation) (cpm : ℚ) (now : ℤ) :
    List BidObservation :=
  (history ++ [(⟨cpm, now⟩ : BidObservation)]).filter fun b =>
    decide (now - b.timestamp < bidExpirationTime)

/-- `Math.floor(sortedBids.length * 0.9)` (src/main.js), the 90th-percentile
rank into the sorted bid array. -/
def percentileIndex (n : ℕ) : ℕ := (9 * n) / 10

/-- JavaScript `Math.round` on a finite value: round half toward +∞. -/
def jsRound (q : ℚ) : ℤ := ⌊q + 1 / 2⌋

/-- The `hb_pb` rounding logic of `adjustPricingRule` (src/main.js):
cent increments below $5, nickel increments below $10, dime increments
otherwise. -/
def roundBid (optimalBid : ℚ) : ℚ :=
  if optimalBid < 5 then (jsRound (optimalBid * 100) : ℚ) / 100
  else if optimalBid < 10 then (jsRound (optimalBid * 20) : ℚ) / 20
  else (jsRound (optimalBid * 10) : ℚ) / 10

/-- `getPeakHourMultiplier(adUnitCode)` (src/main.js): with fewer than 5
stored bids return the default `peakHourIncrease`; otherwise average the
unexpired bid values and return `min(peakHourIncrease + averageBid * 0.01,
0.2)`.  (In JavaScript an empty filtered list would yield `NaN`; the
rational embedding yields `min(peakHourIncrease, 1/5)` there.  The theorems
below only use this function on histories of unexpired samples, where the
two agree.) -/
def getPeakHourMultiplier (history : List BidObservation) (now : ℤ) : ℚ :=
  if history.length < 5 then peakHourIncrease
  else
    let bidValues :=
      (history.filter fun e =>
        decide (now - e.timestamp < bidExpirationTime)).map (·.cpm)
    let averageBid := bidValues.foldl (· + ·) 0 / (bidValues.length : ℚ)
    min (peakHourIncrease + averageBid * (1 / 100)) (1 / 5)

/-- The values `adjustPricingRule` produces for one ad unit:
`requiredBid`, the raw `optimalBid` handed to
`updateGoogleAdManagerPricing`, and the quantized `roundedBid` set as the
`hb_pb` targeting value. -/
structure AdjustmentResult where
  requiredBid : ℚ
  optimalBid : ℚ
  roundedBid : ℚ
  deriving DecidableEq, Repr

/-- `bidHistory[adUnitCode].map(entry => entry.cpm).sort((a, b) => a - b)`
(src/main.js): `map` allocates a fresh array, and `sort` orders that copy
ascending. -/
def sortBids (l : List ℚ) : List ℚ := l.insertionSort (· ≤ ·)

/-- `adjustPricingRule(adUnitCode)` (src/main.js) for one slot's history:
returns `none` (early return) with fewer than 5 samples, otherwise the
computed `AdjustmentResult`.  `sortedBids[idx] || sortedBids[0]` falls back
to the first element exactly when the indexed value is `0` (the only falsy
rational). -/
def adjustPricingRule (history : List BidObservation) (now : ℤ)
    (hours minutes : ℕ) : Option AdjustmentResult :=
  if history.length < 5 then none
  else
    let sortedBids := sortBids (history.map (·.cpm))
    let idxVal := sortedBids.getD (percentileIndex sortedBids.length) 0
    let requiredBid := if idxVal = 0 then sortedBids.getD 0 0 else idxVal
    let baseBid := requiredBid + priceAdjustmentFactor
    let optimalBid :=
      if isPeakHour hours minutes then
        baseBid * (1 + getPeakHourMultiplier history now)
      else baseBid
    some ⟨requiredBid, optimalBid, roundBid optimalBid⟩

/-- The value passed to `pbjs.setTargeting(adUnitCode, { "hb_pb": ... })`:
the quantized bid. -/
def setTargetingValue (r : AdjustmentResult) : ℚ := r.roundedBid

/-- The price passed to `updateGoogleAdManagerPricing(adUnitCode, optimalBid)`:
the raw, unquantized optimal bid. -/
def outboundUpdatePrice (r : AdjustmentResult) : ℚ := r.optimalBid

/-- The global `bidHistory` table, keyed by ad unit code. -/
def BidHistory : Type := String → List BidObservation

/-- `adjustPricingRule` with the whole `bidHistory` table passed explicitly:
it reads `bidHistory[adUnitCode]`, copies the cpm values out with `map`,
sorts the copy, and never writes the table, so the returned table is the
input table unchanged. -/
def adjustPricingRuleS (hist : BidHistory) (adUnitCode : String) (now : ℤ)
    (hours minutes : ℕ) : BidHistory × Option AdjustmentResult :=
  (hist, adjustPricingRule (hist adUnitCode) now hours minutes)

/-- Modelled from the claim's words for comparison with the source: the same
peak-hour multiplier derivation but clamped to the claimed default cap of
0.25 instead of the source's 0.2. -/
def getPeakHourMultiplierClaimed (history : List BidObservation) (now : ℤ) :
    ℚ :=
  if history.length < 5 then peakHourIncrease
  else
    let bidValues :=
      (history.filter fun e =>
        decide (now - e.timestamp < bidExpirationTime)).map (·.cpm)
    let averageBid := bidValues.foldl (· + ·) 0 / (bidValues.length : ℚ)
    min (peakHourIncrease + averageBid * (1 / 100)) (1 / 4)

/-- Modelled from the spec: the repository's FloorBucketizer component is not
present under src/; `scanDown` walks a threshold list and returns the first
element `≤ price`, embedding the spec's "scan from the highest threshold
downward; return the first threshold `<= price`". -/
def scanDown (price : ℚ) : List ℚ → Option ℚ
  | [] => none
  | b :: rest => if b ≤ price then some b else scanDown price rest

/-- Modelled from the spec: `bucketFor(price, buckets)` with `buckets` a
strictly ascending sequence scans from the highest threshold downward for
the first threshold `≤ price` and falls back to the smallest threshold when
none qualifies. -/
def bucketFor (price : ℚ) (buckets : List ℚ) : ℚ :=
  match scanDown price buckets.reverse with
  | some b => b
  | none => buckets.headD 0

/-- The claimed tier width for the `hb_pb` quantization, from the tiers named
in the spec. -/
def increment (t : ℚ) : ℚ :=
  if t < 5 then 1 / 100 else if t < 10 then 1 / 20 else 1 / 10

/-- Ten fresh samples with cpms 1..10, the worked example of the spec. -/
def hist10 : List BidObservation :=
  [⟨1, 0⟩, ⟨2, 0⟩, ⟨3, 0⟩, ⟨4, 0⟩, ⟨5, 0⟩, ⟨6, 0⟩, ⟨7, 0⟩, ⟨8, 0⟩, ⟨9, 0⟩,
    ⟨10, 0⟩]

/-- The cpms of `hist10`, already ascending. -/
def sorted10 : List ℚ := [1, 2, 3, 4, 5, 6, 7, 8, 9, 10]

/-- Five fresh samples all priced 20, averaging 20. -/
def histAvg20 : List BidObservation :=
  [⟨20, 0⟩, ⟨20, 0⟩, ⟨20, 0⟩, ⟨20, 0⟩, ⟨20, 0⟩]

/-- Five fresh samples with cpms 1..5. -/
def hist5 : List BidObservation :=
  [⟨1, 0⟩, ⟨2, 0⟩, ⟨3, 0⟩, ⟨4, 0⟩, ⟨5, 0⟩]

/-- The example bucket list of the spec. -/
def stdBuckets : List ℚ := [1 / 10, 1 / 2, 1, 2, 5, 10]

/- ------------------------------------------------------------------ -/
/- Helper lemmas                                                      -/
/- ------------------------------------------------------------------ -/

/-- Sorting with `sortBids` yields the unique sorted permutation. -/
theorem sortBids_eq_of_sorted_perm (l s : List ℚ) (hs : s.Sorted (· ≤ ·))
    (hp : s.Perm l) : sortBids l = s :=
  List.eq_of_perm_of_sorted ((List.perm_insertionSort _ l).trans hp.symm)
    (List.sorted_insertionSort _ l) hs

/-- With at least 5 samples, all unexpired, the peak-hour multiplier is
`min (peakHourIncrease + average * 0.01) 0.2`: the eviction filter keeps
every sample, so the average is over the whole history. -/
theorem getPeakHourMultiplier_fresh (history : List BidObservation)
    (now : ℤ) (h5 : 5 ≤ history.length)
    (hfresh : ∀ b ∈ history, now - b.timestamp < bidExpirationTime) :
    getPeakHourMultiplier history now =
      min (peakHourIncrease +
        ((history.map (·.cpm)).foldl (· + ·) 0 / (history.length : ℚ)) *
          (1 / 100)) (1 / 5) := by
  unfold getPeakHourMultiplier
  rw [if_neg (by omega : ¬history.length < 5)]
  rw [List.filter_eq_self.mpr fun b hb => decide_eq_true (hfresh b hb)]
  simp [List.length_map]

/-- `Math.round` lands within half a unit of its argument. -/
theorem jsRound_near (q : ℚ) : |(jsRound q : ℚ) - q| ≤ 1 / 2 := by
  have h1 : (jsRound q : ℚ) ≤ q + 1 / 2 := Int.floor_le (q + 1 / 2)
  have h2 : q + 1 / 2 < (jsRound q : ℚ) + 1 := Int.lt_floor_add_one (q + 1 / 2)
  rw [abs_le]
  constructor <;> linarith

/-- `roundBid` rounds to a multiple of the tier increment, moving the value
by at most half an increment. -/
theorem roundBid_tiers (t : ℚ) :
    (∃ k : ℤ, roundBid t = (k : ℚ) * increment t) ∧
      |roundBid t - t| ≤ increment t / 2 := by
  have key : ∀ c : ℚ, 0 < c →
      |(jsRound (t * c) : ℚ) / c - t| ≤ 1 / c / 2 := by
    intro c hc
    have h := jsRound_near (t * c)
    have heq : (jsRound (t * c) : ℚ) / c - t =
        ((jsRound (t * c) : ℚ) - t * c) / c := by
      field_simp
      ring
    rw [heq, abs_div, abs_of_pos hc, div_div]
    rw [div_le_div_iff₀ hc (by positivity)]
    calc |(jsRound (t * c) : ℚ) - t * c| * (c * 2)
        ≤ (1 / 2) * (c * 2) := by
          apply mul_le_mul_of_nonneg_right h (by positivity)
      _ = 1 * c := by ring
  unfold roundBid increment
  by_cases h5 : t < 5
  · rw [if_pos h5, if_pos h5]
    refine ⟨⟨jsRound (t * 100), by ring⟩, ?_⟩
    have := key 100 (by norm_num)
    calc |(jsRound (t * 100) : ℚ) / 100 - t| ≤ 1 / 100 / 2 := this
      _ = 1 / 100 / 2 := rfl
  · rw [if_neg h5, if_neg h5]
    by_cases h10 : t < 10
    · rw [if_pos h10, if_pos h10]
      refine ⟨⟨jsRound (t * 20), by ring⟩, ?_⟩
      have := key 20 (by norm_num)
      calc |(jsRound (t * 20) : ℚ) / 20 - t| ≤ 1 / 20 / 2 := this
        _ = 1 / 20 / 2 := rfl
    · rw [if_neg h10, if_neg h10]
      refine ⟨⟨jsRound (t * 10), by ring⟩, ?_⟩
      have := key 10 (by norm_num)
      calc |(jsRound (t * 10) : ℚ) / 10 - t| ≤ 1 / 10 / 2 := this
        _ = 1 / 10 / 2 := rfl

/-- Every result `adjustPricingRule` produces has its `roundedBid` equal to
`roundBid` of its `optimalBid`. -/
theorem adjustPricingRule_rounded (history : List BidObservation) (now : ℤ)
    (hours minutes : ℕ) (r : AdjustmentResult)
    (h : adjustPricingRule history now hours minutes = some r) :
    r.roundedBid = roundBid r.optimalBid := by
  unfold adjustPricingRule at h
  split at h
  · exact absurd h (by simp)
  · simp only [Option.some.injEq] at h
    subst h
    rfl

/-- A successful downward scan returns a qualifying member of the list. -/
theorem scanDown_some_mem (price : ℚ) (l : List ℚ) (b : ℚ)
    (h : scanDown price l = some b) : b ∈ l ∧ b ≤ price := by
  induction l with
  | nil => exact absurd h (by simp [scanDown])
  | cons x rest ih =>
    rw [scanDown] at h
    by_cases hx : x ≤ price
    · rw [if_pos hx] at h
      injection h with h
      subst h
      exact ⟨List.mem_cons_self x rest, hx⟩
    · rw [if_neg hx] at h
      obtain ⟨hm, hle⟩ := ih h
      exact ⟨List.mem_cons_of_mem x hm, hle⟩

/-- On a strictly descending list, a successful downward scan returns the
largest qualifying element. -/
theorem scanDown_some_max (price : ℚ) (l : List ℚ) (b : ℚ)
    (hl : l.Sorted (· > ·)) (h : scanDown price l = some b) :
    ∀ c ∈ l, c ≤ price → c ≤ b := by
  induction l with
  | nil => exact absurd h (by simp [scanDown])
  | cons x rest ih =>
    rw [List.sorted_cons] at hl
    obtain ⟨hx_gt, hrest⟩ := hl
    rw [scanDown] at h
    by_cases hx : x ≤ price
    · rw [if_pos hx] at h
      injection h with h
      subst h
      intro c hc _
      rcases List.mem_cons.mp hc with hcx | hc
      · exact le_of_eq hcx
      · exact le_of_lt (hx_gt c hc)
    · rw [if_neg hx] at h
      intro c hc hcle
      rcases List.mem_cons.mp hc with hcx | hc
      · exact absurd (hcx ▸ hcle) hx
      · exact ih hrest h c hc hcle

/-- The downward scan fails exactly when every element exceeds the price. -/
theorem scanDown_eq_none (price : ℚ) (l : List ℚ) :
    scanDown price l = none ↔ ∀ b ∈ l, price < b := by
  induction l with
  | nil => simp [scanDown]
  | cons x rest ih =>
    rw [scanDown]
    by_cases hx : x ≤ price
    · rw [if_pos hx]
      constructor
      · intro h
        exact absurd h (by simp)
      · intro h
        exact absurd (h x (List.mem_cons_self x rest)) (not_lt.mpr hx)
    · rw [if_neg hx]
      rw [ih]
      constructor
      · intro h b hb
        rcases List.mem_cons.mp hb with hbx | hb
        · exact hbx ▸ not_le.mp hx
        · exact h b hb
      · intro h b hb
        exact h b (List.mem_cons_of_mem x hb)

/- ------------------------------------------------------------------ -/
/- Claim theorems                                                     -/
/- ------------------------------------------------------------------ -/

/-- C2: after every record of a (slot, price, now) observation, the slot's
stored sample sequence is exactly the previously recorded samples of age
strictly less than the 24-hour retention window, in original insertion
order, followed by the new sample; samples with age `≥ bidExpirationTime`
are removed on each write. -/
theorem recordBid_retention (history : List BidObservation) (cpm : ℚ)
    (now : ℤ) :
    recordBid history cpm now =
      (history.filter fun b =>
        decide (now - b.timestamp < bidExpirationTime)) ++
        [(⟨cpm, now⟩ : BidObservation)] := by
  unfold recordBid
  rw [List.filter_append]
  simp [bidExpirationTime]

/-- C3: with fewer than the minimum 5 samples, `adjustPricingRule` returns
the insufficient-data skip signal (`none`): no price adjustment and no
outbound update, regardless of the sample values. -/
theorem adjustPricingRule_insufficient_data (history : List BidObservation)
    (now : ℤ) (hours minutes : ℕ) (h : history.length < 5) :
    adjustPricingRule history now hours minutes = none := by
  unfold adjustPricingRule
  simp [h]

theorem adjustPricingRule_insufficient_data_witness :
    ([⟨3, 0⟩, ⟨100, 5⟩] : List BidObservation).length < 5 ∧
      adjustPricingRule [⟨3, 0⟩, ⟨100, 5⟩] 0 12 0 = none :=
  ⟨by norm_num, adjustPricingRule_insufficient_data _ 0 12 0 (by norm_num)⟩

/-- C5: a wall-clock time is inside the peak window iff its minute-of-day
lies in the inclusive interval [450, 570] (07:30–09:30) or [990, 1140]
(16:30–19:00); in particular 07:30 and 09:30 are inside the morning window
and 09:31 is outside. -/
theorem isPeakHour_membership :
    (∀ hours minutes : ℕ,
      isPeakHour hours minutes = true ↔
        ((450 ≤ hours * 60 + minutes ∧ hours * 60 + minutes ≤ 570) ∨
          (990 ≤ hours * 60 + minutes ∧ hours * 60 + minutes ≤ 1140))) ∧
      isPeakHour 7 30 = true ∧ isPeakHour 9 30 = true ∧
      isPeakHour 9 31 = false := by
  refine ⟨fun hours minutes => ?_, by decide, by decide, by decide⟩
  simp [isPeakHour]

/-- C9: `adjustPricingRule` never mutates the stored bid history: the
`bidHistory` table after it runs is the table before it ran (the cpm values
are copied out with `map` and only the copy is sorted), and its result is a
pure function of the slot's samples. -/
theorem adjustPricingRuleS_frame (hist : BidHistory) (adUnitCode : String)
    (now : ℤ) (hours minutes : ℕ) :
    (adjustPricingRuleS hist adUnitCode now hours minutes).1 = hist ∧
      (adjustPricingRuleS hist adUnitCode now hours minutes).2 =
        adjustPricingRule (hist adUnitCode) now hours minutes :=
  ⟨rfl, rfl⟩

/-- C10: for every non-empty history, the 90th-percentile rank
`floor(n * 0.9)` into the sorted bid array is strictly below the array
length, so the indexing in the requiredPrice computation is in bounds. -/
theorem percentileIndex_in_bounds (history : List BidObservation)
    (h : 1 ≤ history.length) :
    percentileIndex (sortBids (history.map (·.cpm))).length <
      (sortBids (history.map (·.cpm))).length := by
  have hlen : (sortBids (history.map (·.cpm))).length = history.length := by
    unfold sortBids
    rw [(List.perm_insertionSort _ _).length_eq, List.length_map]
  rw [hlen]
  unfold percentileIndex
  omega

/-- C1: with at least 5 samples the requiredPrice is the element at rank
`floor(n * 0.9)` of the ascending-sorted price sequence (any sorted
permutation `s` of the stored cpms), falling back to the first sorted
sample when that element is zero; in particular for samples 1..10 the
requiredPrice is 10 and the non-peak targetPrice is 10.01. -/
theorem adjustPricingRule_percentile (history : List BidObservation)
    (now : ℤ) (hours minutes : ℕ) (s : List ℚ) (h5 : 5 ≤ history.length)
    (hnp : isPeakHour hours minutes = false) (hs : s.Sorted (· ≤ ·))
    (hp : s.Perm (history.map (·.cpm))) :
    (∃ r : AdjustmentResult,
      adjustPricingRule history now hours minutes = some r ∧
        r.requiredBid =
          (if s.getD (percentileIndex s.length) 0 = 0 then s.getD 0 0
            else s.getD (percentileIndex s.length) 0) ∧
        r.optimalBid = r.requiredBid + priceAdjustmentFactor) ∧
      adjustPricingRule hist10 0 12 0 =
        some ⟨10, 1001 / 100, 10⟩ := by
  constructor
  · have hsort : sortBids (history.map (·.cpm)) = s :=
      sortBids_eq_of_sorted_perm _ s hs hp
    unfold adjustPricingRule
    rw [if_neg (by omega : ¬history.length < 5), hsort, hnp]
    exact ⟨_, rfl, rfl, rfl⟩
  · norm_num [adjustPricingRule, hist10, sortBids, List.insertionSort,
      List.orderedInsert, percentileIndex, List.getD, isPeakHour,
      priceAdjustmentFactor, roundBid, jsRound]

theorem adjustPricingRule_percentile_witness :
    5 ≤ hist10.length ∧ isPeakHour 12 0 = false ∧
      sorted10.Sorted (· ≤ ·) ∧ sorted10.Perm (hist10.map (·.cpm)) ∧
      ((∃ r : AdjustmentResult,
        adjustPricingRule hist10 0 12 0 = some r ∧
          r.requiredBid =
            (if sorted10.getD (percentileIndex sorted10.length) 0 = 0 then
              sorted10.getD 0 0
              else sorted10.getD (percentileIndex sorted10.length) 0) ∧
          r.optimalBid = r.requiredBid + priceAdjustmentFactor) ∧
        adjustPricingRule hist10 0 12 0 = some ⟨10, 1001 / 100, 10⟩) := by
  have h5 : 5 ≤ hist10.length := by norm_num [hist10]
  have hnp : isPeakHour 12 0 = false := by decide
  have hs : sorted10.Sorted (· ≤ ·) := by
    norm_num [sorted10, List.sorted_cons]
  have hp : sorted10.Perm (hist10.map (·.cpm)) := by
    norm_num [sorted10, hist10]
  exact ⟨h5, hnp, hs, hp,
    adjustPricingRule_percentile hist10 0 12 0 sorted10 h5 hnp hs hp⟩

/-- C6: with at least the minimum number of samples and outside peak hours,
the targetPrice is the requiredPrice plus the fixed
`priceAdjustmentFactor` of 0.01 currency units. -/
theorem adjustPricingRule_fixed_increment (history : List BidObservation)
    (now : ℤ) (hours minutes : ℕ) (h5 : 5 ≤ history.length)
    (hnp : isPeakHour hours minutes = false) :
    priceAdjustmentFactor = 1 / 100 ∧
      ∃ r : AdjustmentResult,
        adjustPricingRule history now hours minutes = some r ∧
          r.optimalBid = r.requiredBid + priceAdjustmentFactor := by
  refine ⟨by norm_num [priceAdjustmentFactor], ?_⟩
  unfold adjustPricingRule
  rw [if_neg (by omega : ¬history.length < 5), hnp]
  exact ⟨_, rfl, rfl⟩

theorem adjustPricingRule_fixed_increment_witness :
    5 ≤ histAvg20.length ∧ isPeakHour 12 0 = false ∧
      (priceAdjustmentFactor = 1 / 100 ∧
        ∃ r : AdjustmentResult,
          adjustPricingRule histAvg20 0 12 0 = some r ∧
            r.optimalBid = r.requiredBid + priceAdjustmentFactor) :=
  ⟨by norm_num [histAvg20], by decide,
    adjustPricingRule_fixed_increment histAvg20 0 12 0
      (by norm_num [histAvg20]) (by decide)⟩

/-- C4 counterexample: for five fresh samples all priced 20 at a peak time
(08:00), the source's multiplier is `min (0.15 + 20 * 0.01) 0.2 = 0.2`,
not the claimed cap 0.25: the claimed-cap variant yields 0.25, and the
peak targetPrice actually produced, 24.012 = 20.01 * 1.2, differs from
the 20.01 * 1.25 the claim's cap would give. -/
theorem peakMultiplier_cap_counterexample :
    isPeakHour 8 0 = true ∧
      getPeakHourMultiplier histAvg20 0 = 1 / 5 ∧
      getPeakHourMultiplierClaimed histAvg20 0 = 1 / 4 ∧
      getPeakHourMultiplier histAvg20 0 ≠
        getPeakHourMultiplierClaimed histAvg20 0 ∧
      adjustPricingRule histAvg20 0 8 0 =
        some ⟨20, 6003 / 250, 24⟩ ∧
      (6003 / 250 : ℚ) ≠ (20 + priceAdjustmentFactor) * (1 + 1 / 4) := by
  refine ⟨by decide, ?_, ?_, ?_, ?_, ?_⟩
  · norm_num [getPeakHourMultiplier, histAvg20, bidExpirationTime,
      peakHourIncrease, List.filter]
  · norm_num [getPeakHourMultiplierClaimed, histAvg20, bidExpirationTime,
      peakHourIncrease, List.filter]
  · norm_num [getPeakHourMultiplier, getPeakHourMultiplierClaimed,
      histAvg20, bidExpirationTime, peakHourIncrease, List.filter]
  · norm_num [adjustPricingRule, histAvg20, sortBids, List.insertionSort,
      List.orderedInsert, percentileIndex, List.getD, isPeakHour,
      priceAdjustmentFactor, roundBid, jsRound, getPeakHourMultiplier,
      bidExpirationTime, peakHourIncrease, List.filter]
  · norm_num [priceAdjustmentFactor]

/-- C4 amended: when the current time falls within a peak window, the
targetPrice is multiplied by `(1 + peakMultiplier)`, where the
peakMultiplier is derived from the mean of the current sample set
(`peakHourIncrease + averageBid * 0.01`) and clamped to a cap of 0.2. -/
theorem adjustPricingRule_peak_amended (history : List BidObservation)
    (now : ℤ) (hours minutes : ℕ) (h5 : 5 ≤ history.length)
    (hpk : isPeakHour hours minutes = true)
    (hfresh : ∀ b ∈ history, now - b.timestamp < bidExpirationTime) :
    ∃ r : AdjustmentResult,
      adjustPricingRule history now hours minutes = some r ∧
        r.optimalBid = (r.requiredBid + priceAdjustmentFactor) *
          (1 + min (peakHourIncrease +
            ((history.map (·.cpm)).foldl (· + ·) 0 /
              (history.length : ℚ)) * (1 / 100)) (1 / 5)) := by
  unfold adjustPricingRule
  rw [if_neg (by omega : ¬history.length < 5), hpk]
  exact ⟨_, rfl, by
    rw [getPeakHourMultiplier_fresh history now h5 hfresh]; rfl⟩

theorem adjustPricingRule_peak_amended_witness :
    5 ≤ hist5.length ∧ isPeakHour 17 0 = true ∧
      (∀ b ∈ hist5, (0 : ℤ) - b.timestamp < bidExpirationTime) ∧
      ∃ r : AdjustmentResult,
        adjustPricingRule hist5 0 17 0 = some r ∧
          r.optimalBid = (r.requiredBid + priceAdjustmentFactor) *
            (1 + min (peakHourIncrease +
              ((hist5.map (·.cpm)).foldl (· + ·) 0 /
                (hist5.length : ℚ)) * (1 / 100)) (1 / 5)) :=
  ⟨by norm_num [hist5], by decide, by decide,
    adjustPricingRule_peak_amended hist5 0 17 0 (by norm_num [hist5])
      (by decide) (by decide)⟩

/-- C7: the `hb_pb` targeting value is the targetPrice quantized to cent
increments below 5 units, nickel increments between 5 and 10 units, and
ten-cent increments above (a multiple of the tier increment within half an
increment of the targetPrice), while the outbound price-update call
receives the raw unquantized targetPrice. -/
theorem targeting_value_quantized (history : List BidObservation) (now : ℤ)
    (hours minutes : ℕ) (r : AdjustmentResult)
    (h : adjustPricingRule history now hours minutes = some r) :
    setTargetingValue r = roundBid r.optimalBid ∧
      (∃ k : ℤ, setTargetingValue r = (k : ℚ) * increment r.optimalBid) ∧
      |setTargetingValue r - r.optimalBid| ≤ increment r.optimalBid / 2 ∧
      outboundUpdatePrice r = r.optimalBid := by
  have hr : setTargetingValue r = roundBid r.optimalBid :=
    adjustPricingRule_rounded history now hours minutes r h
  obtain ⟨hk, hnear⟩ := roundBid_tiers r.optimalBid
  exact ⟨hr, hr ▸ hk, hr ▸ hnear, rfl⟩

theorem targeting_value_quantized_witness :
    adjustPricingRule hist10 0 12 0 =
        some ⟨10, 1001 / 100, 10⟩ ∧
      (setTargetingValue ⟨10, 1001 / 100, 10⟩ =
          roundBid (⟨10, 1001 / 100, 10⟩ : AdjustmentResult).optimalBid ∧
        (∃ k : ℤ, setTargetingValue ⟨10, 1001 / 100, 10⟩ = (k : ℚ) *
          increment (⟨10, 1001 / 100, 10⟩ : AdjustmentResult).optimalBid) ∧
        |setTargetingValue ⟨10, 1001 / 100, 10⟩ -
          (⟨10, 1001 / 100, 10⟩ : AdjustmentResult).optimalBid| ≤
          increment (⟨10, 1001 / 100, 10⟩ : AdjustmentResult).optimalBid / 2 ∧
        outboundUpdatePrice ⟨10, 1001 / 100, 10⟩ =
          (⟨10, 1001 / 100, 10⟩ : AdjustmentResult).optimalBid) ∧
      setTargetingValue ⟨10, 1001 / 100, 10⟩ ≠
        outboundUpdatePrice ⟨10, 1001 / 100, 10⟩ := by
  have heval : adjustPricingRule hist10 0 12 0 =
      some ⟨10, 1001 / 100, 10⟩ := by
    norm_num [adjustPricingRule, hist10, sortBids, List.insertionSort,
      List.orderedInsert, percentileIndex, List.getD, isPeakHour,
      priceAdjustmentFactor, roundBid, jsRound]
  exact ⟨heval, targeting_value_quantized hist10 0 12 0 _ heval,
    by norm_num [setTargetingValue, outboundUpdatePrice]⟩

/-- C8: for every price and strictly ascending bucket sequence, `bucketFor`
returns the largest bucket threshold `≤` the price; when no threshold
qualifies it returns the smallest threshold; a price larger than every
bucket therefore returns the largest bucket.  In particular
`bucketFor 0.05 [0.1,0.5,1,2,5,10] = 0.1`, `bucketFor 3 ... = 2` and
`bucketFor 15 ... = 10`. -/
theorem bucketFor_spec (price : ℚ) (buckets : List ℚ)
    (hne : buckets ≠ []) (hsorted : buckets.Sorted (· < ·)) :
    ((∃ b ∈ buckets, b ≤ price) →
      bucketFor price buckets ∈ buckets ∧ bucketFor price buckets ≤ price ∧
        ∀ c ∈ buckets, c ≤ price → c ≤ bucketFor price buckets) ∧
      ((∀ b ∈ buckets, price < b) →
        bucketFor price buckets = buckets.headD 0) ∧
      bucketFor (5 / 100) stdBuckets = 1 / 10 ∧
      bucketFor 3 stdBuckets = 2 ∧ bucketFor 15 stdBuckets = 10 := by
  have hrev : buckets.reverse.Sorted (· > ·) := by
    rw [List.Sorted, List.pairwise_reverse]
    exact hsorted
  refine ⟨?_, ?_, ?_, ?_, ?_⟩
  · rintro ⟨b, hb, hble⟩
    cases hcase : scanDown price buckets.reverse with
    | none =>
      exact absurd
        ((scanDown_eq_none _ _).mp hcase b (List.mem_reverse.mpr hb))
        (not_lt.mpr hble)
    | some v =>
      obtain ⟨hm, hvle⟩ := scanDown_some_mem _ _ _ hcase
      have hmax := scanDown_some_max _ _ _ hrev hcase
      unfold bucketFor
      rw [hcase]
      exact ⟨List.mem_reverse.mp hm, hvle,
        fun c hc hcle => hmax c (List.mem_reverse.mpr hc) hcle⟩
  · intro h
    unfold bucketFor
    rw [(scanDown_eq_none _ _).mpr fun b hb => h b (List.mem_reverse.mp hb)]
  · norm_num [bucketFor, stdBuckets, scanDown, List.reverse, List.reverseAux,
      List.headD]
  · norm_num [bucketFor, stdBuckets, scanDown, List.reverse, List.reverseAux,
      List.headD]
  · norm_num [bucketFor, stdBuckets, scanDown, List.reverse, List.reverseAux,
      List.headD]

theorem bucketFor_spec_witness :
    stdBuckets ≠ [] ∧ stdBuckets.Sorted (· < ·) ∧
      (((∃ b ∈ stdBuckets, b ≤ (3 : ℚ)) →
        bucketFor 3 stdBuckets ∈ stdBuckets ∧ bucketFor 3 stdBuckets ≤ 3 ∧
          ∀ c ∈ stdBuckets, c ≤ 3 → c ≤ bucketFor 3 stdBuckets) ∧
        ((∀ b ∈ stdBuckets, (3 : ℚ) < b) →
          bucketFor 3 stdBuckets = stdBuckets.headD 0) ∧
        bucketFor (5 / 100) stdBuckets = 1 / 10 ∧
        bucketFor 3 stdBuckets = 2 ∧ bucketFor 15 stdBuckets = 10) := by
  have hne : stdBuckets ≠ [] := by
    unfold stdBuckets
    exact List.cons_ne_nil _ _
  have hsorted : stdBuckets.Sorted (· < ·) := by
    norm_num [stdBuckets, List.sorted_cons]
  exact ⟨hne, hsorted, bucketFor_spec 3 stdBuckets hne hsorted⟩

theorem percentileIndex_in_bounds_witness :
    1 ≤ ([⟨7, 0⟩] : List BidObservation).length ∧
      percentileIndex
          (sortBids (([⟨7, 0⟩] : List BidObservation).map (·.cpm))).length <
        (sortBids (([⟨7, 0⟩] : List BidObservation).map (·.cpm))).length :=
  ⟨by norm_num, percentileIndex_in_bounds _ (by norm_num)⟩

end GamFloor
